import Mathlib

/-!
Verification of the Speech-to-Sign streaming backend.

This file gives a shallow embedding of the two core modules of the
repository and proves/refutes the specified properties against it:

* `backend/src/services/mappingService.js` — text normalization
  (`normalizeText`), dictionary matching (`findMatches`) and the public
  mapping operation (`mapTextToSigns`).
* the `StreamController` class (WebSocket session handling:
  `startStreamingRecognition`, `processStreamingAudio`,
  `handleStreamingResult`, `stopStreamingRecognition`,
  `startCleanupTimer`).

Modelling conventions:

* JS strings are modelled as `List Char`; only the ASCII behaviour of
  `toLowerCase`, `\w` and `\s` is modelled (all inputs of interest are
  ASCII).
* JS numbers are modelled as `ℚ` (the confidence arithmetic uses only
  small decimal literals, whose intended arithmetic is rational).
* The wall-clock timestamps attached to emitted events (ISO strings) are
  not modelled; `Date.now()` values that the code compares are passed in
  as explicit `Nat` parameters.
* The asynchronous handlers run to completion one provider event at a
  time (the `await mapTextToSigns` inside `handleStreamingResult`
  resolves on a microtask, before the next provider event is handled),
  so the per-session behaviour is modelled as a sequential state
  machine.
-/

namespace SpeechToSign

/-- ASCII model of the JS `\s` character class (whitespace), as used by
`trim`, `replace(/\s+/g, ...)` and `replace(/[^\w\s]/g, ...)`. -/
def isWsChar (c : Char) : Bool :=
  c = ' ' || c = '\t' || c = '\n' || c = '\r' || c = '\x0b' || c = '\x0c'

/-- ASCII model of the JS `\w` character class (word characters). -/
def isWordChar (c : Char) : Bool :=
  ('a' ≤ c && c ≤ 'z') || ('A' ≤ c && c ≤ 'Z') || ('0' ≤ c && c ≤ '9') || c = '_'

/-- ASCII model of `String.prototype.toLowerCase` on one character. -/
def jsLower (c : Char) : Char :=
  if 65 ≤ c.toNat ∧ c.toNat ≤ 90 then Char.ofNat (c.toNat + 32) else c

/-- JS `String.prototype.trim`: drop whitespace from both ends. -/
def trimList (l : List Char) : List Char :=
  ((l.dropWhile isWsChar).reverse.dropWhile isWsChar).reverse

/-- Worker for `replace(/\s+/g, ' ')`: the flag records whether the
previous character was part of a whitespace run already replaced. -/
def collapseAux : Bool → List Char → List Char
  | _, [] => []
  | prev, c :: cs =>
    if isWsChar c then
      if prev then collapseAux true cs else ' ' :: collapseAux true cs
    else c :: collapseAux false cs

/-- JS `replace(/\s+/g, ' ')`: each maximal whitespace run becomes one space. -/
def collapseWs (l : List Char) : List Char := collapseAux false l

/-- JS `replace(/[^\w\s]/g, '')`: remove punctuation. -/
def removePunct (l : List Char) : List Char :=
  l.filter (fun c => isWordChar c || isWsChar c)

/-- Embeds `MappingService.normalizeText`:
`text.toLowerCase().trim().replace(/[^\w\s]/g, '').replace(/\s+/g, ' ')`. -/
def normalizeText (t : List Char) : List Char :=
  collapseWs (removePunct (trimList (t.map jsLower)))

/-- JS `String.prototype.split(' ')` (split on the literal space
character, keeping empty segments; `"".split(' ')` is `[""]`). -/
def splitSp : List Char → List (List Char)
  | [] => [[]]
  | c :: cs =>
    match splitSp cs with
    | [] => [[]]
    | w :: ws => if c = ' ' then [] :: w :: ws else (c :: w) :: ws

/-- Boolean list-prefix test (used to model JS substring search). -/
def isPrefixB : List Char → List Char → Bool
  | [], _ => true
  | _ :: _, [] => false
  | a :: as, b :: bs => decide (a = b) && isPrefixB as bs

/-- JS `String.prototype.includes`: substring occurrence test. -/
def isSubstrB : List Char → List Char → Bool
  | p, [] => isPrefixB p []
  | p, c :: cs => isPrefixB p (c :: cs) || isSubstrB p cs

/-- JS `String.prototype.replace(pattern, '')` with a string pattern:
remove the first occurrence of `p` (no occurrence: unchanged). -/
def removeFirst (p : List Char) : List Char → List Char
  | [] => []
  | c :: cs => if isPrefixB p (c :: cs) then (c :: cs).drop p.length
               else c :: removeFirst p cs

/-- The mapping dictionary (`mapping.json` / `createFallbackMapping`):
an insertion-ordered association of normalized keys to video file
lists, modelling a plain JS object whose own keys are enumerated in
insertion order. -/
def Dict : Type := List (List Char × List String)

/-- JS property read `mappingData[text]` on the dictionary object. -/
def dictLookup : Dict → List Char → Option (List String)
  | [], _ => none
  | (k, v) :: rest, t => if k = t then some v else dictLookup rest t

/-- The keys of the dictionary, in insertion order (`Object.keys`). -/
def dictKeys (d : Dict) : List (List Char) := d.map (·.1)

/-- Stable insertion of one key into a length-descending sorted list:
`x` is placed before the first entry strictly shorter than it and after
entries of equal length already present. -/
def insertDesc (x : List Char) : List (List Char) → List (List Char)
  | [] => [x]
  | y :: ys => if y.length ≤ x.length then x :: y :: ys else y :: insertDesc x ys

/-- Embeds `Object.keys(mappingData).sort((a, b) => b.length - a.length)`:
stable sort by descending length (V8 `Array.prototype.sort` is stable,
so ties keep insertion order; stable sorting under a total preorder is
unique, so this insertion sort computes the same list). -/
def sortDescLen (l : List (List Char)) : List (List Char) :=
  l.foldr insertDesc []

/-- Accumulator state of the matching loops inside
`MappingService.findMatches` (the `matches` object plus the local
variables `remainingText`, `totalConfidence`, `matchCount`). -/
structure FMState where
  videoFiles : List String
  captions : List (List Char)
  matchedPhrases : List (List Char)
  remainingText : List Char
  totalConfidence : ℚ
  matchCount : Nat
deriving DecidableEq

/-- The phrase-matching loop of `findMatches` (`for (const phrase of
phrases) { if (remainingText.includes(phrase)) ... }`). -/
def phraseLoop (d : Dict) : List (List Char) → FMState → FMState
  | [], st => st
  | p :: ps, st =>
    if isSubstrB p st.remainingText then
      phraseLoop d ps
        { videoFiles := st.videoFiles ++ (dictLookup d p).getD []
          captions := st.captions ++ [p]
          matchedPhrases := st.matchedPhrases ++ [p]
          remainingText := trimList (removeFirst p st.remainingText)
          totalConfidence := st.totalConfidence + 1
          matchCount := st.matchCount + 1 }
    else phraseLoop d ps st

/-- The residual word-matching loop of `findMatches` (`for (const word
of remainingWords) { if (this.mappingData[word]) ... }`). -/
def wordLoop (d : Dict) : List (List Char) → FMState → FMState
  | [], st => st
  | w :: ws, st =>
    match dictLookup d w with
    | some vids =>
      wordLoop d ws
        { st with
          videoFiles := st.videoFiles ++ vids
          captions := st.captions ++ [w]
          matchedPhrases := st.matchedPhrases ++ [w]
          totalConfidence := st.totalConfidence + (4 : ℚ) / 5
          matchCount := st.matchCount + 1 }
    | none => wordLoop d ws st

/-- Result object built by `findMatches`. -/
structure Matches where
  videoFiles : List String
  captions : List (List Char)
  confidence : ℚ
  matchedPhrases : List (List Char)
deriving DecidableEq

/-- The caption of the fallback entry (`'I don\'t understand'`). -/
def notUnderstandCaption : List Char :=
  ['I', ' ', 'd', 'o', 'n', Char.ofNat 39, 't', ' ', 'u', 'n', 'd', 'e', 'r',
   's', 't', 'a', 'n', 'd']

/-- The matched-phrases marker of the fallback entry. -/
def fallbackMarker : List Char := ['f', 'a', 'l', 'l', 'b', 'a', 'c', 'k']

/-- Embeds `MappingService.findMatches` (the dictionary is always loaded in the
modelled configurations, so the `!this.mappingData` guard is not
reachable and is not modelled). -/
def findMatches (d : Dict) (text : List Char) : Matches :=
  match dictLookup d text with
  | some vids =>
    { videoFiles := vids
      captions := [text]
      confidence := 1
      matchedPhrases := [text] }
  | none =>
    let phrases := sortDescLen (dictKeys d)
    let words := splitSp text
    let st0 : FMState := ⟨[], [], [], text, 0, 0⟩
    let st1 := phraseLoop d phrases st0
    let remainingWords := (splitSp st1.remainingText).filter (fun w => w.length > 0)
    let st2 := wordLoop d remainingWords st1
    let conf : ℚ := if st2.matchCount > 0 then st2.totalConfidence / (words.length : ℚ) else 0
    if st2.videoFiles.isEmpty then
      { videoFiles := ["NOT-UNDERSTAND.mp4"]
        captions := [notUnderstandCaption]
        confidence := (1 : ℚ) / 10
        matchedPhrases := [fallbackMarker] }
    else
      { videoFiles := st2.videoFiles
        captions := st2.captions
        confidence := conf
        matchedPhrases := st2.matchedPhrases }

/-- The vocabulary table (`vocabulary.csv` after parsing): filename to
duration (in ms) when the row is present and has a truthy
`duration_ms`. -/
def Vocab : Type := List (String × Nat)

/-- Embeds `MappingService.getVideoDuration`: duration from the vocabulary
entry for the file, else the 2000 ms default. -/
def getVideoDuration (vocab : Vocab) (f : String) : Nat :=
  match vocab.find? (fun e => e.1 == f) with
  | some e => e.2
  | none => 2000

/-- The CDN prefix (`this.cdnBaseUrl`). -/
def cdnBaseUrl : String := "https://your-cdn-domain.com/videos/"

/-- One element of the `signs` array built by `mapTextToSigns`. -/
structure Sign where
  url : String
  filename : String
  duration : Nat
deriving DecidableEq

/-- The object resolved by `mapTextToSigns` (the `processingTime` field
is wall-clock time and is not modelled). -/
structure MapResult where
  signs : List Sign
  captions : List (List Char)
  confidence : ℚ
  matchedPhrases : List (List Char)
deriving DecidableEq

/-- A JS value passed to `mapTextToSigns`: either a string or a
non-string value. -/
inductive JsVal where
  | str (s : List Char)
  | nonString
deriving DecidableEq

/-- Embeds `MappingService.mapTextToSigns`. The guard
`if (!text || typeof text !== 'string') throw new Error('Invalid text input')`
rejects every non-string and also the empty string (the only falsy
string). A thrown error is modelled as `Except.error` with the
error message. -/
def mapTextToSigns (d : Dict) (vocab : Vocab) (v : JsVal) : Except String MapResult :=
  match v with
  | .nonString => .error ("Invalid text input")
  | .str t =>
    if t = [] then .error ("Invalid text input")
    else
      let n := normalizeText t
      let m := findMatches d n
      .ok { signs := m.videoFiles.map (fun f =>
              { url := cdnBaseUrl ++ f, filename := f
                duration := getVideoDuration vocab f })
            captions := m.captions
            confidence := m.confidence
            matchedPhrases := m.matchedPhrases }

/-- Embeds `MappingService.createFallbackMapping`: the in-code dictionary used
when the data files are absent, in its insertion order. -/
def fallbackMapping : Dict :=
  [("hello".toList, ["HELLO.mp4"]),
   ("hi".toList, ["HELLO.mp4"]),
   ("thank you".toList, ["THANK-YOU.mp4"]),
   ("thanks".toList, ["THANK-YOU.mp4"]),
   ("yes".toList, ["YES.mp4"]),
   ("no".toList, ["NO.mp4"]),
   ("please".toList, ["PLEASE.mp4"]),
   ("sorry".toList, ["SORRY.mp4"]),
   ("help".toList, ["HELP.mp4"]),
   ("stop".toList, ["STOP.mp4"]),
   ("water".toList, ["NEED-WATER.mp4"]),
   ("bathroom".toList, ["BATHROOM.mp4"]),
   ("emergency".toList, ["EMERGENCY.mp4"])]

/-- Confidence of a `mapTextToSigns` outcome (`none` when it threw). -/
def resConfidence (r : Except String MapResult) : Option ℚ :=
  r.toOption.map (·.confidence)

/-- Sign video filenames of a `mapTextToSigns` outcome. -/
def resFilenames (r : Except String MapResult) : Option (List String) :=
  r.toOption.map (fun m => m.signs.map (·.filename))

/-- Captions of a `mapTextToSigns` outcome. -/
def resCaptions (r : Except String MapResult) : Option (List (List Char)) :=
  r.toOption.map (·.captions)

/-! ## StreamController (WebSocket streaming sessions) -/

/-- The per-session config assembled by `startStreamingRecognition`
(defaulting of the client `options` already applied; the constant
fields `enableWordTimeOffsets`, `model`, `useEnhanced` carry no
information and are omitted). -/
structure SessionConfig where
  encoding : String
  sampleRate : Nat
  languageCode : String
  interimResults : Bool
deriving DecidableEq

/-- State of one provider stream handle (`recognizeStream`):
`destroyed` is the flag the controller reads; `endCalls` counts how
often `recognizeStream.end()` has been invoked on it. -/
structure StreamSt where
  destroyed : Bool
  endCalls : Nat
deriving DecidableEq

/-- One value of the `activeConnections` map: the stream handle is
identified by its index into the list of all streams ever created. -/
structure Conn where
  stream : Nat
  config : SessionConfig
  startTime : Nat
  lastActivity : Nat
deriving DecidableEq

/-- Events emitted to a client socket (`socket.emit`). Wall-clock
`timestamp` payload fields are not modelled. `errorEvt` is the generic
`error` event. -/
inductive Ev where
  | streamingStarted (sock : Nat) (config : SessionConfig)
  | transcriptUpdate (sock : Nat) (transcript : List Char) (confidence : ℚ) (isFinal : Bool)
  | signsUpdate (sock : Nat) (originalText : List Char) (mappedSigns : List Sign)
      (captions : List (List Char)) (confidence : ℚ)
  | mappingError (sock : Nat)
  | streamingError (sock : Nat) (message : String)
  | streamingEnded (sock : Nat)
  | streamingStopped (sock : Nat)
  | errorEvt (sock : Nat) (message : String)
deriving DecidableEq

/-- Controller state: the `activeConnections` map (insertion-ordered,
keys unique), every stream handle ever created (indexed by creation
order), the ordered log of emitted events, and the log of audio writes
(`recognizeStream.write`, by stream index). -/
structure CState where
  registry : List (Nat × Conn)
  streams : List StreamSt
  events : List Ev
  writes : List Nat
deriving DecidableEq

/-- Embeds `Map.prototype.get`. -/
def mapGet (m : List (Nat × Conn)) (k : Nat) : Option Conn :=
  match m with
  | [] => none
  | (k', v) :: rest => if k' = k then some v else mapGet rest k

/-- Embeds `Map.prototype.set`: overwrite in place, else append. -/
def mapSet (m : List (Nat × Conn)) (k : Nat) (v : Conn) : List (Nat × Conn) :=
  match m with
  | [] => [(k, v)]
  | (k', v') :: rest => if k' = k then (k, v) :: rest else (k', v') :: mapSet rest k v

/-- Embeds `Map.prototype.delete`. -/
def mapDel (m : List (Nat × Conn)) (k : Nat) : List (Nat × Conn) :=
  m.filter (fun e => e.1 ≠ k)

/-- Read a stream handle's state (out-of-range reads never happen in
well-formed states). -/
def streamGet (streams : List StreamSt) (i : Nat) : StreamSt :=
  streams.getD i ⟨false, 0⟩

/-- Embeds `recognizeStream.end()` on stream `i`. -/
def streamEnd (streams : List StreamSt) (i : Nat) : List StreamSt :=
  streams.set i { streamGet streams i with endCalls := (streamGet streams i).endCalls + 1 }

/-- Embeds `StreamController.startStreamingRecognition` for socket `sock` at
time `now`. `opened` tells whether
`speechService.createStreamingRecognition` produced a stream (`false`
models a thrown/`null` result). On success a fresh stream handle is
created and the registry entry is `set` — with **no** check for an
existing entry. On failure the `catch` emits `streaming-error` and
rethrows, and the `socket.on('start-streaming')` handler's `catch`
emits a generic `error`. -/
def startStreaming (st : CState) (sock : Nat) (cfg : SessionConfig)
    (opened : Bool) (now : Nat) : CState :=
  if opened then
    let sid := st.streams.length
    { st with
      streams := st.streams ++ [⟨false, 0⟩]
      registry := mapSet st.registry sock ⟨sid, cfg, now, now⟩
      events := st.events ++ [.streamingStarted sock cfg] }
  else
    { st with
      events := st.events ++
        [.streamingError sock ("Failed to start streaming recognition"),
         .errorEvt sock ("Failed to start streaming recognition")] }

/-- Embeds `StreamController.processStreamingAudio` for socket `sock` at time
`now` (the audio payload decoding to a buffer is not relevant to any
claim and is not modelled; a forwarded chunk is logged by stream
index). -/
def processAudio (st : CState) (sock : Nat) (now : Nat) : CState :=
  match mapGet st.registry sock with
  | none => { st with events := st.events ++ [.errorEvt sock ("No active streaming session")] }
  | some conn =>
    let reg := mapSet st.registry sock { conn with lastActivity := now }
    if (streamGet st.streams conn.stream).destroyed then
      { st with registry := reg
                events := st.events ++ [.streamingError sock ("Streaming session ended")] }
    else
      { st with registry := reg, writes := st.writes ++ [conn.stream] }

/-- Embeds `StreamController.stopStreamingRecognition`: if a connection is
registered, `end()` its stream unless already destroyed and delete the
registry entry; in **every** case emit `streaming-stopped`. -/
def stopStreaming (st : CState) (sock : Nat) : CState :=
  match mapGet st.registry sock with
  | none => { st with events := st.events ++ [.streamingStopped sock] }
  | some conn =>
    { st with
      streams := if (streamGet st.streams conn.stream).destroyed then st.streams
                 else streamEnd st.streams conn.stream
      registry := mapDel st.registry sock
      events := st.events ++ [.streamingStopped sock] }

/-- The idle timeout of the cleanup timer (5 minutes in ms). -/
def idleTimeout : Nat := 5 * 60 * 1000

/-- Body of one sweep of `startCleanupTimer`'s interval callback,
iterating over a snapshot of the map entries: a stale entry is deleted
from the registry and its stream `end()`ed unless already destroyed.
No event is emitted. -/
def sweepGo (now : Nat) : List (Nat × Conn) → CState → CState
  | [], st => st
  | (sock, conn) :: rest, st =>
    if now - conn.lastActivity > idleTimeout then
      sweepGo now rest
        { st with
          registry := mapDel st.registry sock
          streams := if (streamGet st.streams conn.stream).destroyed then st.streams
                     else streamEnd st.streams conn.stream }
    else sweepGo now rest st

/-- One tick of the cleanup timer at time `now`. -/
def cleanupSweep (st : CState) (now : Nat) : CState :=
  sweepGo now st.registry st

/-- One alternative of a provider result
(`confidence` is absent when the provider omits the field). -/
structure Alt where
  transcript : List Char
  confidence : Option ℚ
deriving DecidableEq

/-- One provider result. -/
structure RecResult where
  alternatives : List Alt
  isFinal : Bool
deriving DecidableEq

/-- A provider `data` payload: `results` may be absent. -/
structure StreamData where
  results : Option (List RecResult)
deriving DecidableEq

/-- Embeds `result.alternatives[0].confidence || 0.8`: JS `||` substitutes the
default for an absent field and for the falsy value `0`. -/
def confDefault (c : Option ℚ) : ℚ :=
  match c with
  | none => (4 : ℚ) / 5
  | some v => if v = 0 then (4 : ℚ) / 5 else v

/-- Embeds `StreamController.handleStreamingResult`, parametrized by the
mapping call (the source calls the imported
`mappingService.mapTextToSigns`). Empty/absent `results` return before
any emit. Reading `alternatives[0]` of an empty list throws, which the
surrounding `catch` turns into a generic `error` event. On a final,
non-`trim`-empty transcript, the awaited mapping call's success emits
`signs-update` and its failure emits `mapping-error`; the registry is
never touched. -/
def handleStreamingResultWith (mapper : List Char → Except String MapResult)
    (st : CState) (sock : Nat) (data : StreamData) : CState :=
  match data.results with
  | none => st
  | some [] => st
  | some (r :: _) =>
    match r.alternatives with
    | [] => { st with events := st.events ++ [.errorEvt sock ("Failed to process recognition result")] }
    | a :: _ =>
      let conf := confDefault a.confidence
      let st1 := { st with events := st.events ++ [.transcriptUpdate sock a.transcript conf r.isFinal] }
      if r.isFinal && !(trimList a.transcript).isEmpty then
        match mapper a.transcript with
        | .ok mr =>
          { st1 with events := st1.events ++
              [.signsUpdate sock a.transcript mr.signs mr.captions mr.confidence] }
        | .error _ =>
          { st1 with events := st1.events ++ [.mappingError sock] }
      else st1

/-- Embeds `handleStreamingResult` with the real mapping service. -/
def handleStreamingResult (d : Dict) (vocab : Vocab) (st : CState) (sock : Nat)
    (data : StreamData) : CState :=
  handleStreamingResultWith (fun t => mapTextToSigns d vocab (.str t)) st sock data

/-- An event surfaced by the provider stream for one session. -/
inductive ProviderEv where
  | data (d : StreamData)
  | error
  | ended
deriving DecidableEq

/-- Dispatch of the `recognizeStream` `data`/`error`/`end` listeners
registered in `startStreamingRecognition`: `error` emits
`streaming-error` then runs `stopStreamingRecognition`; `end` emits
`streaming-ended` then runs `stopStreamingRecognition`. -/
def providerStep (d : Dict) (vocab : Vocab) (st : CState) (sock : Nat) : ProviderEv → CState
  | .data dt => handleStreamingResult d vocab st sock dt
  | .error =>
    stopStreaming
      { st with events := st.events ++ [.streamingError sock ("Speech recognition error")] } sock
  | .ended =>
    stopStreaming { st with events := st.events ++ [.streamingEnded sock] } sock

/-- A scripted sequence of provider events for one session, processed
in order. -/
def providerRun (d : Dict) (vocab : Vocab) (st : CState) (sock : Nat) :
    List ProviderEv → CState
  | [] => st
  | e :: es => providerRun d vocab (providerStep d vocab st sock e) sock es

/-! ## Registry map lemmas -/

theorem mapGet_mapSet_self (m : List (Nat × Conn)) (k : Nat) (v : Conn) :
    mapGet (mapSet m k v) k = some v := by
  induction m with
  | nil => simp [mapSet, mapGet]
  | cons e rest ih =>
    obtain ⟨k', v'⟩ := e
    by_cases h : k' = k
    · simp [mapSet, h, mapGet]
    · simp [mapSet, h, mapGet, ih]

theorem mapGet_mapDel_self (m : List (Nat × Conn)) (k : Nat) :
    mapGet (mapDel m k) k = none := by
  induction m with
  | nil => rfl
  | cons e rest ih =>
    by_cases h : e.1 = k
    · simpa [mapDel, List.filter_cons, h] using ih
    · simpa [mapDel, List.filter_cons, h, mapGet] using ih

theorem mapGet_mapDel_none (m : List (Nat × Conn)) (k s : Nat)
    (h : mapGet m s = none) : mapGet (mapDel m k) s = none := by
  induction m with
  | nil => rfl
  | cons e rest ih =>
    by_cases hk : e.1 = s
    · simp [mapGet, hk] at h
    · simp only [mapGet, hk, if_neg] at h
      by_cases hd : e.1 = k
      · simpa [mapDel, List.filter_cons, hd] using ih h
      · simpa [mapDel, List.filter_cons, hd, mapGet, hk] using ih h

/-! ## Demo states shared by the concrete runs -/

/-- The default session config assembled from an empty `options`. -/
def cfgDemo : SessionConfig := ⟨"WEBM_OPUS", 48000, "en-US", true⟩

/-- A controller with no session, no stream, nothing emitted. -/
def emptyCState : CState := ⟨[], [], [], []⟩

/-- One registered session whose provider stream is already destroyed. -/
def deadStreamState : CState := ⟨[(0, ⟨0, cfgDemo, 0, 0⟩)], [⟨true, 0⟩], [], []⟩

/-- One registered session, live stream, `lastActivity = 0`. -/
def staleState : CState := ⟨[(0, ⟨0, cfgDemo, 0, 0⟩)], [⟨false, 0⟩], [], []⟩

/-! ## C9 -/

/-- On a socket with no registry entry, `stopStreamingRecognition` only
emits `streaming-stopped`. -/
theorem stopStreaming_absent (st : CState) (sock : Nat)
    (h : mapGet st.registry sock = none) :
    stopStreaming st sock = { st with events := st.events ++ [.streamingStopped sock] } := by
  unfold stopStreaming
  rw [h]

/-- C9: `stopStreamingRecognition` emits exactly one `streaming-stopped`
event per invocation, unconditionally — also when the socket has no
active session, in which case the rest of the state is untouched; the
registry entry is gone afterwards, and a repeated invocation only emits
another `streaming-stopped`. -/
theorem stop_streaming_unconditional_event (st : CState) (sock : Nat) :
    (stopStreaming st sock).events = st.events ++ [.streamingStopped sock] ∧
    (mapGet st.registry sock = none →
      stopStreaming st sock = { st with events := st.events ++ [.streamingStopped sock] }) ∧
    mapGet (stopStreaming st sock).registry sock = none ∧
    stopStreaming (stopStreaming st sock) sock =
      { stopStreaming st sock with
        events := (stopStreaming st sock).events ++ [.streamingStopped sock] } := by
  have hev : (stopStreaming st sock).events = st.events ++ [.streamingStopped sock] := by
    unfold stopStreaming
    cases mapGet st.registry sock <;> rfl
  have hnone : mapGet (stopStreaming st sock).registry sock = none := by
    unfold stopStreaming
    cases h : mapGet st.registry sock with
    | none => simpa using h
    | some conn => simpa using mapGet_mapDel_self st.registry sock
  exact ⟨hev, fun h => stopStreaming_absent st sock h, hnone,
    stopStreaming_absent (stopStreaming st sock) sock hnone⟩

/-- Witness for C9: stopping a socket that never had a session is a
pure `streaming-stopped` emission. -/
theorem stop_streaming_unconditional_event_witness :
    stopStreaming emptyCState 3 =
      { emptyCState with events := emptyCState.events ++ [.streamingStopped 3] } :=
  (stop_streaming_unconditional_event emptyCState 3).2.1 (by decide)

/-! ## C1 -/

/-- C1 counterexample: starting twice on socket `7` without a stop
emits two `streaming-started` events and no error event of any kind;
the registry silently points to the new handle (stream `1`) and the old
handle (stream `0`) was never `end()`ed nor destroyed. -/
theorem double_start_not_rejected_cex :
    (startStreaming (startStreaming emptyCState 7 cfgDemo true 100) 7 cfgDemo true 200).events
      = [.streamingStarted 7 cfgDemo, .streamingStarted 7 cfgDemo] ∧
    mapGet (startStreaming (startStreaming emptyCState 7 cfgDemo true 100) 7 cfgDemo
        true 200).registry 7 = some ⟨1, cfgDemo, 200, 200⟩ ∧
    streamGet (startStreaming (startStreaming emptyCState 7 cfgDemo true 100) 7 cfgDemo
        true 200).streams 0 = ⟨false, 0⟩ := by decide

/-- C1 (amended): a second successful start on a session with an active
bridge handle is accepted, not rejected: the only event emitted is
another `streaming-started`, the registry entry is silently overwritten
with the fresh handle, and the old handle's state is left untouched —
in particular it is never closed. (The registry itself still maps the
session to a single handle.) -/
theorem double_start_overwrites_silently (st : CState) (sock : Nat) (cfg : SessionConfig)
    (now : Nat) (conn : Conn) (hc : mapGet st.registry sock = some conn)
    (hs : conn.stream < st.streams.length) :
    (startStreaming st sock cfg true now).events = st.events ++ [.streamingStarted sock cfg] ∧
    mapGet (startStreaming st sock cfg true now).registry sock =
      some ⟨st.streams.length, cfg, now, now⟩ ∧
    streamGet (startStreaming st sock cfg true now).streams conn.stream =
      streamGet st.streams conn.stream := by
  refine ⟨by simp [startStreaming], by simp [startStreaming, mapGet_mapSet_self], ?_⟩
  simp only [startStreaming, if_pos, streamGet]
  exact List.getD_append _ _ _ _ hs

/-- Witness for C1's amended theorem at the concrete double start. -/
theorem double_start_overwrites_silently_witness :
    (startStreaming (startStreaming emptyCState 7 cfgDemo true 100) 7 cfgDemo true 200).events
      = (startStreaming emptyCState 7 cfgDemo true 100).events ++ [.streamingStarted 7 cfgDemo] ∧
    mapGet (startStreaming (startStreaming emptyCState 7 cfgDemo true 100) 7 cfgDemo
        true 200).registry 7 = some ⟨1, cfgDemo, 200, 200⟩ ∧
    streamGet (startStreaming (startStreaming emptyCState 7 cfgDemo true 100) 7 cfgDemo
        true 200).streams 0
      = streamGet (startStreaming emptyCState 7 cfgDemo true 100).streams 0 :=
  double_start_overwrites_silently (startStreaming emptyCState 7 cfgDemo true 100) 7 cfgDemo 200
    ⟨0, cfgDemo, 100, 100⟩ (by decide) (by decide)

/-! ## C7 -/

/-- C7 counterexample: an audio chunk on a session whose stream is
already destroyed emits `streaming-error`, but the session is **not**
torn down: the registry still holds it and no `streaming-stopped` is
emitted. -/
theorem audio_after_end_not_torn_down_cex :
    (processAudio deadStreamState 0 5).events = [.streamingError 0 ("Streaming session ended")] ∧
    mapGet (processAudio deadStreamState 0 5).registry 0 ≠ none ∧
    (processAudio deadStreamState 0 5).writes = [] := by decide

/-- C7 (amended): when an audio chunk arrives for a session whose
bridge has already ended, the handler emits `streaming-error` and does
not forward the chunk, but the session is **not** torn down: the only
state change besides the event is the `lastActivity` refresh, and the
session stays registered. -/
theorem audio_after_end_keeps_session (st : CState) (sock now : Nat) (conn : Conn)
    (hc : mapGet st.registry sock = some conn)
    (hd : (streamGet st.streams conn.stream).destroyed = true) :
    processAudio st sock now =
      { st with registry := mapSet st.registry sock { conn with lastActivity := now }
                events := st.events ++ [.streamingError sock ("Streaming session ended")] } ∧
    mapGet (processAudio st sock now).registry sock = some { conn with lastActivity := now } := by
  constructor
  · unfold processAudio
    rw [hc]
    simp [hd]
  · unfold processAudio
    rw [hc]
    simp [hd, mapGet_mapSet_self]

/-- Witness for C7's amended theorem at the concrete dead-stream state. -/
theorem audio_after_end_keeps_session_witness :
    processAudio deadStreamState 0 5 =
      { deadStreamState with
        registry := mapSet deadStreamState.registry 0 ⟨0, cfgDemo, 0, 5⟩
        events := deadStreamState.events ++ [.streamingError 0 ("Streaming session ended")] } ∧
    mapGet (processAudio deadStreamState 0 5).registry 0 = some ⟨0, cfgDemo, 0, 5⟩ :=
  audio_after_end_keeps_session deadStreamState 0 5 ⟨0, cfgDemo, 0, 0⟩ (by decide) (by decide)

/-! ## C2 / C3 counterexamples -/

/-- C2 counterexample: the empty string is a string, yet
`mapTextToSigns` throws `Invalid text input` on it (the `!text` guard
catches the falsy empty string), instead of succeeding with the
fallback entry. -/
theorem map_empty_string_throws_cex :
    mapTextToSigns fallbackMapping [] (.str ("".toList)) = .error ("Invalid text input") := by
  rfl

/-- C3 counterexample: on input `"nohi"` (one word) both dictionary
keys `"hi"` and `"no"` match as substrings, each contributing weight
`1.0`, so the aggregate confidence is `2 / 1 = 2 > 1`: the score is not
confined to `[0, 1]`. -/
theorem confidence_exceeds_one_cex :
    resConfidence (mapTextToSigns fallbackMapping [] (.str ("nohi".toList))) = some 2 ∧
    ¬ ((2 : ℚ) ≤ 1) := by
  constructor
  · have h : resConfidence (mapTextToSigns fallbackMapping [] (.str ("nohi".toList)))
        = some (((0 : ℚ) + 1 + 1) / ((1 : ℕ) : ℚ)) := rfl
    rw [h]
    norm_num
  · norm_num

/-! ## Substring / split lemmas -/

theorem isPrefixB_self (l : List Char) : isPrefixB l l = true := by
  induction l with
  | nil => rfl
  | cons c cs ih => simp [isPrefixB, ih]

theorem isSubstrB_self (l : List Char) : isSubstrB l l = true := by
  cases l with
  | nil => rfl
  | cons c cs => simp [isSubstrB, isPrefixB_self]

theorem isSubstrB_cons_of (p : List Char) (c : Char) (cs : List Char)
    (h : isSubstrB p cs = true) : isSubstrB p (c :: cs) = true := by
  simp [isSubstrB, h]

theorem mem_insertDesc (x y : List Char) : ∀ l : List (List Char),
    y ∈ insertDesc x l → y = x ∨ y ∈ l := by
  intro l
  induction l with
  | nil => intro h; simpa [insertDesc] using h
  | cons z zs ih =>
    intro h
    by_cases hl : z.length ≤ x.length
    · simp only [insertDesc, if_pos hl] at h
      rcases List.mem_cons.mp h with h1 | h1
      · exact Or.inl h1
      · exact Or.inr h1
    · simp only [insertDesc, if_neg hl] at h
      rcases List.mem_cons.mp h with h1 | h1
      · exact Or.inr (by simp [h1])
      · rcases ih h1 with h2 | h2
        · exact Or.inl h2
        · exact Or.inr (by simp [h2])

theorem mem_sortDescLen (l : List (List Char)) (y : List Char)
    (h : y ∈ sortDescLen l) : y ∈ l := by
  induction l with
  | nil => simpa [sortDescLen] using h
  | cons x xs ih =>
    rcases mem_insertDesc x y (sortDescLen xs) h with h' | h'
    · simp [h']
    · simp [ih h']

theorem dictLookup_some_mem (d : Dict) (t : List Char) (v : List String)
    (h : dictLookup d t = some v) : t ∈ dictKeys d := by
  induction d with
  | nil => simp [dictLookup] at h
  | cons e rest ih =>
    obtain ⟨k, vs⟩ := e
    by_cases hk : k = t
    · simp [dictKeys, hk]
    · simp only [dictLookup, if_neg hk] at h
      simp [dictKeys] at ih ⊢
      exact Or.inr (ih h)

theorem phraseLoop_no_match (d : Dict) (ps : List (List Char)) (st : FMState)
    (h : ∀ p ∈ ps, isSubstrB p st.remainingText = false) : phraseLoop d ps st = st := by
  induction ps with
  | nil => rfl
  | cons p rest ih =>
    have hp : isSubstrB p st.remainingText = false := h p (by simp)
    simp only [phraseLoop, hp, Bool.false_eq_true, if_neg]
    exact ih (fun q hq => h q (by simp [hq]))

theorem wordLoop_no_match (d : Dict) (ws : List (List Char)) (st : FMState)
    (h : ∀ w ∈ ws, dictLookup d w = none) : wordLoop d ws st = st := by
  induction ws with
  | nil => rfl
  | cons w rest ih =>
    have hw : dictLookup d w = none := h w (by simp)
    simp only [wordLoop, hw]
    exact ih (fun q hq => h q (by simp [hq]))

theorem splitSp_ne_nil (t : List Char) : splitSp t ≠ [] := by
  cases t with
  | nil => simp [splitSp]
  | cons c cs =>
    simp only [splitSp]
    rcases hs : splitSp cs with _ | ⟨w, ws⟩
    · simp
    · by_cases hc : c = ' ' <;> simp [hc]

theorem splitSp_head_prefixB (t : List Char) : ∀ (w : List Char) (ws : List (List Char)),
    splitSp t = w :: ws → isPrefixB w t = true := by
  induction t with
  | nil =>
    intro w ws h
    simp only [splitSp] at h
    cases h
    rfl
  | cons c cs ih =>
    intro w ws h
    rcases hs : splitSp cs with _ | ⟨w', ws'⟩
    · exact absurd hs (splitSp_ne_nil cs)
    · simp only [splitSp, hs] at h
      by_cases hc : c = ' '
      · rw [if_pos hc] at h
        cases h
        rfl
      · rw [if_neg hc] at h
        cases h
        simp [isPrefixB, ih _ _ hs]

theorem splitSp_mem_substrB (t : List Char) : ∀ p : List Char,
    p ∈ splitSp t → isSubstrB p t = true := by
  induction t with
  | nil =>
    intro p h
    simp [splitSp] at h
    simp [h, isSubstrB, isPrefixB]
  | cons c cs ih =>
    intro p h
    rcases hs : splitSp cs with _ | ⟨w, ws⟩
    · exact absurd hs (splitSp_ne_nil cs)
    · simp only [splitSp, hs] at h
      by_cases hc : c = ' '
      · rw [if_pos hc] at h
        rcases List.mem_cons.mp h with h1 | h1
        · simp [h1, isSubstrB, isPrefixB]
        · exact isSubstrB_cons_of _ _ _ (ih p (by rw [hs]; exact h1))
      · rw [if_neg hc] at h
        rcases List.mem_cons.mp h with h1 | h1
        · have hw : isPrefixB w cs = true := splitSp_head_prefixB cs w ws hs
          simp [h1, isSubstrB, isPrefixB, hw]
        · exact isSubstrB_cons_of _ _ _ (ih p (by rw [hs]; simp [h1]))

/-! ## C2 -/

/-- The `MapResult` of the fallback (`NOT-UNDERSTAND`) path. -/
def fallbackMapResult (vocab : Vocab) : MapResult :=
  { signs := [{ url := cdnBaseUrl ++ "NOT-UNDERSTAND.mp4", filename := "NOT-UNDERSTAND.mp4"
                duration := getVideoDuration vocab ("NOT-UNDERSTAND.mp4") }]
    captions := [notUnderstandCaption]
    confidence := (1 : ℚ) / 10
    matchedPhrases := [fallbackMarker] }

/-- Embeds `findMatches` on a text in which no dictionary key occurs returns
the fallback entry. -/
theorem findMatches_no_match (d : Dict) (n : List Char)
    (hk : ∀ k ∈ dictKeys d, isSubstrB k n = false) :
    findMatches d n =
      { videoFiles := ["NOT-UNDERSTAND.mp4"], captions := [notUnderstandCaption]
        confidence := (1 : ℚ) / 10, matchedPhrases := [fallbackMarker] } := by
  unfold findMatches
  cases hdl : dictLookup d n with
  | some v =>
    have := hk n (dictLookup_some_mem d n v hdl)
    rw [isSubstrB_self] at this
    cases this
  | none =>
    have hphr : phraseLoop d (sortDescLen (dictKeys d)) ⟨[], [], [], n, 0, 0⟩
        = ⟨[], [], [], n, 0, 0⟩ :=
      phraseLoop_no_match d _ _ (fun p hp => hk p (mem_sortDescLen _ p hp))
    have hwrd : ∀ w ∈ (splitSp n).filter (fun w => w.length > 0), dictLookup d w = none := by
      intro w hw
      cases hdw : dictLookup d w with
      | none => rfl
      | some vs =>
        have hmem : w ∈ splitSp n := List.mem_of_mem_filter hw
        have h1 := hk w (dictLookup_some_mem d w vs hdw)
        rw [splitSp_mem_substrB n w hmem] at h1
        cases h1
    simp only [hphr]
    rw [wordLoop_no_match d _ _ hwrd]
    rfl

/-- C2 (amended): for every **non-empty** string whose normalized form
contains no dictionary key, `mapTextToSigns` succeeds and returns
exactly the fallback entry (`NOT-UNDERSTAND.mp4`, caption `I don't
understand`) with confidence `0.1`; `signs` and `captions` are
non-empty. (For non-string input — and, unlike the original claim, also
for the empty string, which the `!text` guard treats as falsy — the
operation throws.) -/
theorem no_match_yields_fallback (d : Dict) (vocab : Vocab) (t : List Char) (ht : t ≠ [])
    (hk : ∀ k ∈ dictKeys d, isSubstrB k (normalizeText t) = false) :
    mapTextToSigns d vocab (.str t) = .ok (fallbackMapResult vocab) ∧
    (fallbackMapResult vocab).signs ≠ [] ∧ (fallbackMapResult vocab).captions ≠ [] ∧
    (fallbackMapResult vocab).confidence = (1 : ℚ) / 10 ∧
    mapTextToSigns d vocab .nonString = .error ("Invalid text input") := by
  refine ⟨?_, by simp [fallbackMapResult], by simp [fallbackMapResult],
    rfl, rfl⟩
  simp only [mapTextToSigns]
  rw [if_neg ht, findMatches_no_match d (normalizeText t) hk]
  rfl

/-- Witness for C2's amended theorem: the whitespace-only input `" "`
normalizes to the empty string, matches nothing, and maps to the
fallback entry. -/
theorem no_match_yields_fallback_witness :
    mapTextToSigns fallbackMapping [] (.str (" ".toList)) = .ok (fallbackMapResult []) ∧
    (fallbackMapResult ([] : Vocab)).signs ≠ [] ∧
    (fallbackMapResult ([] : Vocab)).captions ≠ [] ∧
    (fallbackMapResult ([] : Vocab)).confidence = (1 : ℚ) / 10 ∧
    mapTextToSigns fallbackMapping [] .nonString = .error ("Invalid text input") :=
  no_match_yields_fallback fallbackMapping [] (" ".toList) (by decide) (by decide)

/-! ## C4 -/

/-- C4: on a text whose normalized form is exactly a dictionary key,
the mapping returns confidence exactly `1.0`, the key's video list
unchanged and in order, and the normalized text as the single
caption. -/
theorem exact_match_confidence_one (d : Dict) (vocab : Vocab) (t : List Char)
    (vids : List String) (ht : t ≠ [])
    (hk : dictLookup d (normalizeText t) = some vids) :
    resConfidence (mapTextToSigns d vocab (.str t)) = some 1 ∧
    resFilenames (mapTextToSigns d vocab (.str t)) = some vids ∧
    resCaptions (mapTextToSigns d vocab (.str t)) = some [normalizeText t] := by
  simp only [mapTextToSigns]
  rw [if_neg ht]
  unfold findMatches
  rw [hk]
  simp [resConfidence, resFilenames, resCaptions, Except.toOption, List.map_map,
    Function.comp]
  exact List.map_id vids

/-- Witness for C4 at `"thank you"` in the fallback dictionary. -/
theorem exact_match_confidence_one_witness :
    resConfidence (mapTextToSigns fallbackMapping [] (.str ("thank you".toList))) = some 1 ∧
    resFilenames (mapTextToSigns fallbackMapping [] (.str ("thank you".toList)))
      = some ["THANK-YOU.mp4"] ∧
    resCaptions (mapTextToSigns fallbackMapping [] (.str ("thank you".toList)))
      = some [normalizeText ("thank you".toList)] :=
  exact_match_confidence_one fallbackMapping [] ("thank you".toList) ["THANK-YOU.mp4"]
    (by decide) (by decide)

/-! ## C10 -/

/-- C10: a provider `data` event with absent or empty `results` leaves
the controller state untouched (no client-facing event); otherwise
exactly one `transcript-update` is emitted, relaying the first result's
first alternative, with `confDefault` substituting `0.8` when the
provider omits the confidence; any further event triggered by the same
`data` (signs-update / mapping-error) is not a `transcript-update`. -/
theorem provider_result_relay (mapper : List Char → Except String MapResult)
    (st : CState) (sock : Nat) :
    handleStreamingResultWith mapper st sock ⟨none⟩ = st ∧
    handleStreamingResultWith mapper st sock ⟨some []⟩ = st ∧
    (∀ (a : Alt) (als : List Alt) (fin : Bool) (rest : List RecResult),
      ∃ extra,
        (handleStreamingResultWith mapper st sock ⟨some (⟨a :: als, fin⟩ :: rest)⟩).events
          = st.events ++ .transcriptUpdate sock a.transcript (confDefault a.confidence) fin :: extra ∧
        ∀ e ∈ extra, ∀ s tr c f, e ≠ .transcriptUpdate s tr c f) ∧
    confDefault none = (4 : ℚ) / 5 := by
  refine ⟨rfl, rfl, ?_, rfl⟩
  intro a als fin rest
  unfold handleStreamingResultWith
  by_cases hf : fin && !(trimList a.transcript).isEmpty
  · simp only [hf, if_pos]
    cases hm : mapper a.transcript with
    | ok mr =>
      exact ⟨[.signsUpdate sock a.transcript mr.signs mr.captions mr.confidence],
        by simp, by simp⟩
    | error e =>
      exact ⟨[.mappingError sock], by simp, by simp⟩
  · simp only [hf, if_neg]
    exact ⟨[], by simp, by simp⟩

/-- Witness for C10 at concrete inputs: an empty `results` list
produces no event, and a one-result payload with omitted confidence
relays it at confidence `0.8`. -/
theorem provider_result_relay_witness :
    handleStreamingResultWith (fun t => mapTextToSigns fallbackMapping [] (.str t))
      emptyCState 2 ⟨some []⟩ = emptyCState ∧
    confDefault none = (4 : ℚ) / 5 :=
  ⟨(provider_result_relay (fun t => mapTextToSigns fallbackMapping [] (.str t))
      emptyCState 2).2.1,
   (provider_result_relay (fun t => mapTextToSigns fallbackMapping [] (.str t))
      emptyCState 2).2.2.2⟩

/-! ## C3 (amended): confidence nonnegativity -/

theorem phraseLoop_tc_le (d : Dict) : ∀ (ps : List (List Char)) (st : FMState),
    st.totalConfidence ≤ (phraseLoop d ps st).totalConfidence := by
  intro ps
  induction ps with
  | nil => intro st; exact le_refl _
  | cons p rest ih =>
    intro st
    cases hp : isSubstrB p st.remainingText with
    | true =>
      simp only [phraseLoop, hp, if_pos]
      refine le_trans ?_ (ih _)
      simp only
      linarith
    | false =>
      simp only [phraseLoop, hp, Bool.false_eq_true, if_neg]
      exact ih st

theorem wordLoop_tc_le (d : Dict) : ∀ (ws : List (List Char)) (st : FMState),
    st.totalConfidence ≤ (wordLoop d ws st).totalConfidence := by
  intro ws
  induction ws with
  | nil => intro st; exact le_refl _
  | cons w rest ih =>
    intro st
    cases hw : dictLookup d w with
    | some vids =>
      simp only [wordLoop, hw]
      refine le_trans ?_ (ih _)
      simp only
      linarith
    | none =>
      simp only [wordLoop, hw]
      exact ih st

theorem findMatches_conf_nonneg (d : Dict) (n : List Char) :
    0 ≤ (findMatches d n).confidence := by
  unfold findMatches
  cases hdl : dictLookup d n with
  | some v => norm_num
  | none =>
    simp only
    have h1 : (0 : ℚ) ≤ (phraseLoop d (sortDescLen (dictKeys d))
        ⟨[], [], [], n, 0, 0⟩).totalConfidence :=
      phraseLoop_tc_le d (sortDescLen (dictKeys d)) ⟨[], [], [], n, 0, 0⟩
    have h2 := wordLoop_tc_le d
      ((splitSp (phraseLoop d (sortDescLen (dictKeys d))
          ⟨[], [], [], n, 0, 0⟩).remainingText).filter (fun w => w.length > 0))
      (phraseLoop d (sortDescLen (dictKeys d)) ⟨[], [], [], n, 0, 0⟩)
    have h3 : (0 : ℚ) ≤ (wordLoop d
        ((splitSp (phraseLoop d (sortDescLen (dictKeys d))
            ⟨[], [], [], n, 0, 0⟩).remainingText).filter (fun w => w.length > 0))
        (phraseLoop d (sortDescLen (dictKeys d)) ⟨[], [], [], n, 0, 0⟩)).totalConfidence :=
      le_trans h1 h2
    split
    · norm_num
    · split
      · exact div_nonneg h3 (Nat.cast_nonneg _)
      · exact le_refl _

/-- C3 (amended): the aggregate confidence of every successful mapping
is nonnegative, but it is **not** bounded by 1 (see the
counterexample): substring phrase matches each add weight `1.0` while
consuming less than a whole word, so the weight sum can exceed the word
count. -/
theorem mapping_confidence_nonneg (d : Dict) (vocab : Vocab) (v : JsVal) (c : ℚ)
    (h : resConfidence (mapTextToSigns d vocab v) = some c) : 0 ≤ c := by
  cases v with
  | nonString => simp [mapTextToSigns, resConfidence, Except.toOption] at h
  | str t =>
    by_cases ht : t = []
    · simp [mapTextToSigns, ht, resConfidence, Except.toOption] at h
    · have hc : c = (findMatches d (normalizeText t)).confidence := by
        simp only [mapTextToSigns] at h
        rw [if_neg ht] at h
        simp only [resConfidence, Except.toOption] at h
        simpa using h.symm
      rw [hc]
      exact findMatches_conf_nonneg d (normalizeText t)

/-- Witness for C3's amended theorem at `"hello"` (confidence 1 ≥ 0). -/
theorem mapping_confidence_nonneg_witness :
    (0 : ℚ) ≤ 1 ∧
    resConfidence (mapTextToSigns fallbackMapping [] (.str ("hello".toList))) = some 1 :=
  ⟨mapping_confidence_nonneg fallbackMapping [] (.str ("hello".toList)) 1 rfl, rfl⟩

/-! ## C5: normalization idempotence -/

/-- C5 counterexample: `normalizeText` is **not** idempotent. On
`"a !"` the trim happens before punctuation removal, so stripping the
`!` leaves a trailing space that a second application removes:
`normalize("a !") = "a "` but `normalize("a ") = "a"`. -/
theorem normalize_not_idempotent_cex :
    normalizeText (normalizeText ("a !".toList)) ≠ normalizeText ("a !".toList) ∧
    normalizeText ("a !".toList) = "a ".toList ∧
    normalizeText (normalizeText ("a !".toList)) = "a".toList := by decide

/-- Adjacent characters are never both whitespace. -/
def noWsPair (a b : Char) : Prop := isWsChar a = false ∨ isWsChar b = false

theorem toNat_ofNat_valid (n : Nat) (h : n.isValidChar) : (Char.ofNat n).toNat = n := by
  rw [Char.ofNat, dif_pos h]
  rfl

theorem jsLower_idem (c : Char) : jsLower (jsLower c) = jsLower c := by
  unfold jsLower
  by_cases h : 65 ≤ c.toNat ∧ c.toNat ≤ 90
  · rw [if_pos h]
    have hv : (c.toNat + 32).isValidChar := Or.inl (by omega)
    have ht : (Char.ofNat (c.toNat + 32)).toNat = c.toNat + 32 := toNat_ofNat_valid _ hv
    rw [if_neg (by omega : ¬(65 ≤ (Char.ofNat (c.toNat + 32)).toNat ∧
      (Char.ofNat (c.toNat + 32)).toNat ≤ 90))]
  · rw [if_neg h, if_neg h]

theorem mem_collapseAux : ∀ (b : Bool) (l : List Char) (c : Char),
    c ∈ collapseAux b l → c = ' ' ∨ (c ∈ l ∧ isWsChar c = false) := by
  intro b l
  induction l generalizing b with
  | nil => intro c h; simp [collapseAux] at h
  | cons x xs ih =>
    intro c h
    cases hx : isWsChar x with
    | true =>
      cases b with
      | true =>
        simp only [collapseAux, hx, if_pos] at h
        rcases ih true c h with h1 | h1
        · exact Or.inl h1
        · exact Or.inr ⟨by simp [h1.1], h1.2⟩
      | false =>
        simp only [collapseAux, hx, if_pos] at h
        rcases List.mem_cons.mp h with h1 | h1
        · exact Or.inl h1
        · rcases ih true c h1 with h2 | h2
          · exact Or.inl h2
          · exact Or.inr ⟨by simp [h2.1], h2.2⟩
    | false =>
      simp only [collapseAux, hx, Bool.false_eq_true, if_neg] at h
      rcases List.mem_cons.mp h with h1 | h1
      · exact Or.inr ⟨by simp [h1], h1 ▸ hx⟩
      · rcases ih false c h1 with h2 | h2
        · exact Or.inl h2
        · exact Or.inr ⟨by simp [h2.1], h2.2⟩

theorem collapseAux_true_head : ∀ (l : List Char) (c : Char) (cs : List Char),
    collapseAux true l = c :: cs → isWsChar c = false := by
  intro l
  induction l with
  | nil => intro c cs h; simp [collapseAux] at h
  | cons x xs ih =>
    intro c cs h
    cases hx : isWsChar x with
    | true =>
      simp only [collapseAux, hx, if_pos] at h
      exact ih c cs h
    | false =>
      simp only [collapseAux, hx, Bool.false_eq_true, if_neg] at h
      cases h
      exact hx

theorem chain'_collapseAux : ∀ (b : Bool) (l : List Char),
    List.Chain' noWsPair (collapseAux b l) := by
  intro b l
  induction l generalizing b with
  | nil => simp [collapseAux]
  | cons x xs ih =>
    cases hx : isWsChar x with
    | true =>
      cases b with
      | true => simpa only [collapseAux, hx, if_pos] using ih true
      | false =>
        simp only [collapseAux, hx, if_pos]
        refine List.chain'_cons'.mpr ⟨?_, ih true⟩
        intro y hy
        cases hcl : collapseAux true xs with
        | nil => simp [hcl] at hy
        | cons z zs =>
          rw [hcl] at hy
          simp only [List.head?_cons, Option.mem_def, Option.some.injEq] at hy
          exact Or.inr (hy ▸ collapseAux_true_head xs z zs hcl)
    | false =>
      simp only [collapseAux, hx, Bool.false_eq_true, if_neg]
      exact List.chain'_cons'.mpr ⟨fun y _ => Or.inl hx, ih false⟩

theorem chain'_dropWhile (q : Char → Bool) : ∀ l : List Char,
    List.Chain' noWsPair l → List.Chain' noWsPair (l.dropWhile q) := by
  intro l
  induction l with
  | nil => intro h; simpa using h
  | cons x xs ih =>
    intro h
    by_cases hq : q x = true
    · rw [List.dropWhile_cons_of_pos hq]
      exact ih h.tail
    · rw [List.dropWhile_cons_of_neg hq]
      exact h

theorem chain'_reverse_noWsPair (l : List Char) (h : List.Chain' noWsPair l) :
    List.Chain' noWsPair l.reverse := by
  rw [List.chain'_reverse]
  exact h.imp (fun a b hab => hab.symm) |>.imp (fun a b hab => hab)

theorem chain'_trimList (l : List Char) (h : List.Chain' noWsPair l) :
    List.Chain' noWsPair (trimList l) := by
  unfold trimList
  exact chain'_reverse_noWsPair _ (chain'_dropWhile _ _
    (chain'_reverse_noWsPair _ (chain'_dropWhile _ _ h)))

theorem trimList_subset (l : List Char) (c : Char) (h : c ∈ trimList l) : c ∈ l := by
  unfold trimList at h
  rw [List.mem_reverse] at h
  have h1 := (List.dropWhile_sublist _).subset h
  rw [List.mem_reverse] at h1
  exact (List.dropWhile_sublist _).subset h1

theorem collapseAux_id : ∀ l : List Char,
    (∀ c ∈ l, isWsChar c = true → c = ' ') → List.Chain' noWsPair l →
    collapseAux false l = l ∧
      ((∀ d ds, l = d :: ds → isWsChar d = false) → collapseAux true l = l) := by
  intro l
  induction l with
  | nil => exact fun _ _ => ⟨rfl, fun _ => rfl⟩
  | cons x xs ih =>
    intro hsp hch
    obtain ⟨ihF, ihT⟩ := ih (fun c hc => hsp c (by simp [hc])) hch.tail
    cases hx : isWsChar x with
    | true =>
      have hxsp : x = ' ' := hsp x (by simp) hx
      have hxs : collapseAux true xs = xs := by
        refine ihT ?_
        intro d ds hds
        have := (List.chain'_cons'.mp hch).1 d (by simp [hds])
        rcases this with h1 | h1
        · rw [hx] at h1; cases h1
        · exact h1
      constructor
      · subst hxsp
        simp [collapseAux, hx, hxs]
      · intro hhd
        have := hhd x xs rfl
        rw [hx] at this
        cases this
    | false =>
      constructor
      · simp [collapseAux, hx, ihF]
      · intro _
        simp [collapseAux, hx, ihF]

theorem normalizeText_chars (t : List Char) : ∀ c ∈ normalizeText t,
    jsLower c = c ∧ (isWordChar c || isWsChar c) = true ∧ (isWsChar c = true → c = ' ') := by
  intro c hc
  unfold normalizeText collapseWs at hc
  rcases mem_collapseAux false _ c hc with h1 | h1
  · subst h1
    refine ⟨by decide, by decide, fun _ => rfl⟩
  · obtain ⟨hmem, hws⟩ := h1
    unfold removePunct at hmem
    rw [List.mem_filter] at hmem
    obtain ⟨hmem, hkeep⟩ := hmem
    have hmap : c ∈ (t.map jsLower) := trimList_subset _ c hmem
    rw [List.mem_map] at hmap
    obtain ⟨a, _, ha⟩ := hmap
    exact ⟨by rw [← ha, jsLower_idem], hkeep, fun h => absurd h (by simp [hws])⟩

/-- C5 (amended): normalization is idempotent **up to a final trim**:
for every string `x`, `normalize(normalize(x)) = trim(normalize(x))`.
(Idempotence as originally claimed fails exactly when punctuation
stripping exposes leading/trailing whitespace that the early `trim` did
not see; see the counterexample.) -/
theorem normalize_normalize_eq_trim (t : List Char) :
    normalizeText (normalizeText t) = trimList (normalizeText t) := by
  have hch : List.Chain' noWsPair (normalizeText t) := chain'_collapseAux false _
  have hmap : (normalizeText t).map jsLower = normalizeText t := by
    rw [List.map_congr_left (fun a ha => (normalizeText_chars t a ha).1)]
    exact List.map_id' _
  have hfilter : removePunct (trimList (normalizeText t)) = trimList (normalizeText t) := by
    unfold removePunct
    refine List.filter_eq_self.mpr ?_
    intro a ha
    exact (normalizeText_chars t a (trimList_subset _ a ha)).2.1
  have hsp : ∀ c ∈ trimList (normalizeText t), isWsChar c = true → c = ' ' :=
    fun c hc => (normalizeText_chars t c (trimList_subset _ c hc)).2.2
  have hcoll : collapseAux false (trimList (normalizeText t)) = trimList (normalizeText t) :=
    (collapseAux_id _ hsp (chain'_trimList _ hch)).1
  show collapseWs (removePunct (trimList ((normalizeText t).map jsLower)))
      = trimList (normalizeText t)
  rw [hmap, hfilter]
  exact hcoll

/-! ## C6: per-session event ordering -/

/-- Embeds `stopStreamingRecognition` always appends exactly one
`streaming-stopped` to the event log. -/
theorem stopStreaming_events (st : CState) (sock : Nat) :
    (stopStreaming st sock).events = st.events ++ [.streamingStopped sock] := by
  unfold stopStreaming
  cases mapGet st.registry sock <;> rfl

/-- C6 counterexample: for the scripted provider sequence
(interim, interim, final, ended) the client additionally observes a
trailing `streaming-stopped` (emitted by the `stopStreamingRecognition`
call inside the `end` listener), so the observed order is **not**
exactly the five events of the claim. -/
theorem scripted_run_extra_stopped_cex :
    (providerRun fallbackMapping [] emptyCState 4
        [.data ⟨some [⟨[⟨"hel".toList, none⟩], false⟩]⟩,
         .data ⟨some [⟨[⟨"hell".toList, none⟩], false⟩]⟩,
         .data ⟨some [⟨[⟨"hello".toList, none⟩], true⟩]⟩, .ended]).events
      = [.transcriptUpdate 4 ("hel".toList) ((4 : ℚ) / 5) false,
         .transcriptUpdate 4 ("hell".toList) ((4 : ℚ) / 5) false,
         .transcriptUpdate 4 ("hello".toList) ((4 : ℚ) / 5) true,
         .signsUpdate 4 ("hello".toList)
           [{ url := cdnBaseUrl ++ "HELLO.mp4", filename := "HELLO.mp4", duration := 2000 }]
           [("hello".toList)] 1,
         .streamingEnded 4, .streamingStopped 4] ∧
    (providerRun fallbackMapping [] emptyCState 4
        [.data ⟨some [⟨[⟨"hel".toList, none⟩], false⟩]⟩,
         .data ⟨some [⟨[⟨"hell".toList, none⟩], false⟩]⟩,
         .data ⟨some [⟨[⟨"hello".toList, none⟩], true⟩]⟩, .ended]).events
      ≠ [.transcriptUpdate 4 ("hel".toList) ((4 : ℚ) / 5) false,
         .transcriptUpdate 4 ("hell".toList) ((4 : ℚ) / 5) false,
         .transcriptUpdate 4 ("hello".toList) ((4 : ℚ) / 5) true,
         .signsUpdate 4 ("hello".toList)
           [{ url := cdnBaseUrl ++ "HELLO.mp4", filename := "HELLO.mp4", duration := 2000 }]
           [("hello".toList)] 1,
         .streamingEnded 4] := by
  constructor
  · rfl
  · intro h
    have hl := congrArg List.length h
    rw [show (providerRun fallbackMapping [] emptyCState 4
        [.data ⟨some [⟨[⟨"hel".toList, none⟩], false⟩]⟩,
         .data ⟨some [⟨[⟨"hell".toList, none⟩], false⟩]⟩,
         .data ⟨some [⟨[⟨"hello".toList, none⟩], true⟩]⟩, .ended]).events.length = 6
      from rfl] at hl
    simp at hl

/-- C6 (amended): for the scripted provider sequence (interim, interim,
final, providerEnded) the client observes exactly
`transcript-update, transcript-update, transcript-update, signs-update,
streaming-ended, streaming-stopped` in that order — the final
transcript's `transcript-update` precedes its `signs-update` — and a
mapping failure on a final transcript emits `mapping-error` after the
`transcript-update` while leaving the rest of the session state
(including the registry) untouched. -/
theorem scripted_run_event_order (d : Dict) (vocab : Vocab) (st : CState) (sock : Nat)
    (a1 a2 af : Alt) (mr : MapResult)
    (hf : (trimList af.transcript).isEmpty = false)
    (hm : mapTextToSigns d vocab (.str af.transcript) = .ok mr) :
    (providerRun d vocab st sock
        [.data ⟨some [⟨[a1], false⟩]⟩, .data ⟨some [⟨[a2], false⟩]⟩,
         .data ⟨some [⟨[af], true⟩]⟩, .ended]).events
      = st.events ++
        [.transcriptUpdate sock a1.transcript (confDefault a1.confidence) false,
         .transcriptUpdate sock a2.transcript (confDefault a2.confidence) false,
         .transcriptUpdate sock af.transcript (confDefault af.confidence) true,
         .signsUpdate sock af.transcript mr.signs mr.captions mr.confidence,
         .streamingEnded sock, .streamingStopped sock] ∧
    (∀ (mapper : List Char → Except String MapResult) (st' : CState) (a : Alt) (e : String),
      mapper a.transcript = .error e → (trimList a.transcript).isEmpty = false →
      handleStreamingResultWith mapper st' sock ⟨some [⟨[a], true⟩]⟩
        = { st' with events := st'.events ++
            [.transcriptUpdate sock a.transcript (confDefault a.confidence) true,
             .mappingError sock] }) := by
  constructor
  · simp only [providerRun, providerStep, handleStreamingResult, handleStreamingResultWith,
      Bool.false_and, Bool.false_eq_true, if_neg, Bool.true_and, hf, Bool.not_false,
      if_pos, hm]
    rw [stopStreaming_events]
    simp [List.append_assoc]
  · intro mapper st' a e hme hta
    simp only [handleStreamingResultWith, Bool.true_and, hta, Bool.not_false, if_pos, hme]
    simp [List.append_assoc]

/-- Witness for C6's amended theorem at a concrete scripted run and a
concrete failing mapper. -/
theorem scripted_run_event_order_witness :
    (providerRun fallbackMapping [] emptyCState 4
        [.data ⟨some [⟨[⟨"hel".toList, none⟩], false⟩]⟩,
         .data ⟨some [⟨[⟨"hell".toList, none⟩], false⟩]⟩,
         .data ⟨some [⟨[⟨"hello".toList, none⟩], true⟩]⟩, .ended]).events
      = emptyCState.events ++
        [.transcriptUpdate 4 ("hel".toList) (confDefault none) false,
         .transcriptUpdate 4 ("hell".toList) (confDefault none) false,
         .transcriptUpdate 4 ("hello".toList) (confDefault none) true,
         .signsUpdate 4 ("hello".toList)
           [{ url := cdnBaseUrl ++ "HELLO.mp4", filename := "HELLO.mp4", duration := 2000 }]
           [("hello".toList)] 1,
         .streamingEnded 4, .streamingStopped 4] ∧
    handleStreamingResultWith (fun _ => .error ("lookup failed")) deadStreamState 4
        ⟨some [⟨[⟨"hi".toList, none⟩], true⟩]⟩
      = { deadStreamState with events := deadStreamState.events ++
          [.transcriptUpdate 4 ("hi".toList) (confDefault none) true, .mappingError 4] } := by
  have h := scripted_run_event_order fallbackMapping [] emptyCState 4
    ⟨"hel".toList, none⟩ ⟨"hell".toList, none⟩ ⟨"hello".toList, none⟩
    { signs := [{ url := cdnBaseUrl ++ "HELLO.mp4", filename := "HELLO.mp4", duration := 2000 }]
      captions := [("hello".toList)], confidence := 1, matchedPhrases := [("hello".toList)] }
    (by decide) rfl
  exact ⟨h.1, h.2 (fun _ => .error ("lookup failed")) deadStreamState
    ⟨"hi".toList, none⟩ ("lookup failed") rfl (by decide)⟩

/-! ## C8: idle reaper sweep -/

theorem streamGet_streamEnd_ne (streams : List StreamSt) (i j : Nat) (h : i ≠ j) :
    streamGet (streamEnd streams i) j = streamGet streams j := by
  unfold streamEnd streamGet
  rw [List.getD_eq_getElem?_getD, List.getElem?_set_ne h, ← List.getD_eq_getElem?_getD]

theorem streamGet_streamEnd_self (streams : List StreamSt) (i : Nat)
    (h : i < streams.length) :
    streamGet (streamEnd streams i) i
      = { streamGet streams i with endCalls := (streamGet streams i).endCalls + 1 } := by
  unfold streamEnd streamGet
  rw [List.getD_eq_getElem?_getD, List.getElem?_set_self h]
  rfl

theorem sweepGo_events (now : Nat) : ∀ (entries : List (Nat × Conn)) (st : CState),
    (sweepGo now entries st).events = st.events := by
  intro entries
  induction entries with
  | nil => intro st; rfl
  | cons e rest ih =>
    intro st
    obtain ⟨k, c⟩ := e
    by_cases h : now - c.lastActivity > idleTimeout
    · simp only [sweepGo, if_pos h]
      rw [ih]
    · simp only [sweepGo, if_neg h]
      exact ih st

theorem sweepGo_registry_none (now : Nat) : ∀ (entries : List (Nat × Conn)) (st : CState)
    (sock : Nat), mapGet st.registry sock = none →
    mapGet (sweepGo now entries st).registry sock = none := by
  intro entries
  induction entries with
  | nil => intro st sock h; exact h
  | cons e rest ih =>
    intro st sock h
    obtain ⟨k, c⟩ := e
    by_cases hs : now - c.lastActivity > idleTimeout
    · simp only [sweepGo, if_pos hs]
      exact ih _ sock (mapGet_mapDel_none _ _ _ h)
    · simp only [sweepGo, if_neg hs]
      exact ih st sock h

theorem sweepGo_streams_other (now : Nat) : ∀ (entries : List (Nat × Conn)) (st : CState)
    (s : Nat), (∀ e ∈ entries, e.2.stream ≠ s) →
    streamGet (sweepGo now entries st).streams s = streamGet st.streams s := by
  intro entries
  induction entries with
  | nil => intro st s _; rfl
  | cons e rest ih =>
    intro st s hne
    obtain ⟨k, c⟩ := e
    have hc : c.stream ≠ s := hne (k, c) (by simp)
    have hrest : ∀ e ∈ rest, e.2.stream ≠ s := fun e he => hne e (by simp [he])
    by_cases hs : now - c.lastActivity > idleTimeout
    · simp only [sweepGo, if_pos hs]
      rw [ih _ s hrest]
      by_cases hd : (streamGet st.streams c.stream).destroyed
      · simp [hd]
      · simp only [hd, Bool.false_eq_true, if_neg]
        exact streamGet_streamEnd_ne st.streams c.stream s hc
    · simp only [sweepGo, if_neg hs]
      exact ih st s hrest

theorem sweepGo_streams_len (now : Nat) : ∀ (entries : List (Nat × Conn)) (st : CState),
    (sweepGo now entries st).streams.length = st.streams.length := by
  intro entries
  induction entries with
  | nil => intro st; rfl
  | cons e rest ih =>
    intro st
    obtain ⟨k, c⟩ := e
    by_cases hs : now - c.lastActivity > idleTimeout
    · simp only [sweepGo, if_pos hs]
      rw [ih]
      by_cases hd : (streamGet st.streams c.stream).destroyed <;>
        simp [hd, streamEnd, List.length_set]
    · simp only [sweepGo, if_neg hs]
      exact ih st

theorem mapGet_some_mem (m : List (Nat × Conn)) (k : Nat) (v : Conn) :
    mapGet m k = some v → (k, v) ∈ m := by
  induction m with
  | nil => intro h; simp [mapGet] at h
  | cons e rest ih =>
    intro h
    obtain ⟨k', v'⟩ := e
    rw [show mapGet ((k', v') :: rest) k = if k' = k then some v' else mapGet rest k
      from rfl] at h
    by_cases hk : k' = k
    · rw [if_pos hk] at h
      injection h with hv
      rw [← hk, ← hv]
      exact List.mem_cons_self _ _
    · rw [if_neg hk] at h
      exact List.mem_cons_of_mem _ (ih h)

theorem sweepGo_stale (now : Nat) : ∀ (entries : List (Nat × Conn)) (st : CState)
    (sock : Nat) (conn : Conn),
    (sock, conn) ∈ entries →
    (entries.map (·.1)).Nodup →
    (∀ e ∈ entries, e.1 ≠ sock → e.2.stream ≠ conn.stream) →
    now - conn.lastActivity > idleTimeout →
    conn.stream < st.streams.length →
    (sweepGo now entries st).events = st.events ∧
    mapGet (sweepGo now entries st).registry sock = none ∧
    streamGet (sweepGo now entries st).streams conn.stream
      = (if (streamGet st.streams conn.stream).destroyed then streamGet st.streams conn.stream
         else { streamGet st.streams conn.stream with
                endCalls := (streamGet st.streams conn.stream).endCalls + 1 }) := by
  intro entries
  induction entries with
  | nil => intro st sock conn hmem; simp at hmem
  | cons e rest ih =>
    intro st sock conn hmem hnd hstr hstale hlen
    obtain ⟨k, c⟩ := e
    rw [List.map_cons] at hnd
    obtain ⟨hknotin, hndrest⟩ := List.nodup_cons.mp hnd
    rcases List.mem_cons.mp hmem with hhd | htl
    · -- head case: our entry is processed first
      injection hhd with hk hc
      subst hk
      subst hc
      simp only [sweepGo, if_pos hstale]
      have hrest : ∀ e ∈ rest, e.2.stream ≠ conn.stream := by
        intro e he
        have he1 : e.1 ≠ sock := by
          intro hE
          exact hknotin (List.mem_map.mpr ⟨e, he, hE⟩)
        exact hstr e (List.mem_cons_of_mem _ he) he1
      refine ⟨sweepGo_events now _ _, ?_, ?_⟩
      · exact sweepGo_registry_none now rest _ sock (mapGet_mapDel_self st.registry sock)
      · rw [sweepGo_streams_other now rest _ conn.stream hrest]
        by_cases hd : (streamGet st.streams conn.stream).destroyed
        · simp [hd]
        · simp [hd, streamGet_streamEnd_self st.streams conn.stream hlen]
    · -- tail case: our entry appears later
      have hk : k ≠ sock := by
        intro hkk
        exact hknotin (List.mem_map.mpr ⟨(sock, conn), htl, hkk.symm⟩)
      have hcs : c.stream ≠ conn.stream := hstr (k, c) (by simp) hk
      have hstr' : ∀ e ∈ rest, e.1 ≠ sock → e.2.stream ≠ conn.stream :=
        fun e he h1 => hstr e (List.mem_cons_of_mem _ he) h1
      by_cases hs : now - c.lastActivity > idleTimeout
      · simp only [sweepGo, if_pos hs]
        have hlen' : conn.stream < (if (streamGet st.streams c.stream).destroyed
            then st.streams else streamEnd st.streams c.stream).length := by
          split
          · exact hlen
          · simpa [streamEnd, List.length_set] using hlen
        obtain ⟨hE, hR, hS⟩ := ih
          { st with registry := mapDel st.registry k,
                    streams := if (streamGet st.streams c.stream).destroyed
                               then st.streams else streamEnd st.streams c.stream }
          sock conn htl hndrest hstr' hstale hlen'
        have hproj : ({ st with registry := mapDel st.registry k,
                                streams := if (streamGet st.streams c.stream).destroyed
                                           then st.streams
                                           else streamEnd st.streams c.stream } : CState).streams
            = (if (streamGet st.streams c.stream).destroyed
               then st.streams else streamEnd st.streams c.stream) := rfl
        rw [hproj] at hS
        have hsg : streamGet (if (streamGet st.streams c.stream).destroyed
            then st.streams else streamEnd st.streams c.stream) conn.stream
            = streamGet st.streams conn.stream := by
          split
          · rfl
          · exact streamGet_streamEnd_ne st.streams c.stream conn.stream hcs
        rw [hsg] at hS
        exact ⟨hE, hR, hS⟩
      · simp only [sweepGo, if_neg hs]
        exact ih st sock conn htl hndrest hstr' hstale hlen

/-- C8 counterexample: the sweep is **not** the same cleanup path as a
client-initiated stop: sweeping a stale session emits no event at all,
while `stopStreamingRecognition` on the same state emits
`streaming-stopped`; the resulting states differ. -/
theorem sweep_not_stop_path_cex :
    (cleanupSweep staleState 1000000).events = staleState.events ∧
    (stopStreaming staleState 0).events = staleState.events ++ [.streamingStopped 0] ∧
    cleanupSweep staleState 1000000 ≠ stopStreaming staleState 0 := by decide

/-- C8 (amended): on a sweep tick, every registered session whose
`lastActivity` is older than the 5-minute timeout is removed from the
registry and its stream is `end()`ed exactly once (not at all if it was
already destroyed) — but through an inline path that, unlike a
client-initiated stop, emits no event (`streaming-stopped` in
particular is not sent). The well-formedness hypotheses say that
registry keys are unique and no other session shares this session's
stream handle. -/
theorem idle_sweep_removes_stale (st : CState) (now sock : Nat) (conn : Conn)
    (hreg : mapGet st.registry sock = some conn)
    (hnd : (st.registry.map (·.1)).Nodup)
    (hstr : ∀ e ∈ st.registry, e.1 ≠ sock → e.2.stream ≠ conn.stream)
    (hstale : now - conn.lastActivity > idleTimeout)
    (hlen : conn.stream < st.streams.length) :
    (cleanupSweep st now).events = st.events ∧
    mapGet (cleanupSweep st now).registry sock = none ∧
    streamGet (cleanupSweep st now).streams conn.stream
      = (if (streamGet st.streams conn.stream).destroyed then streamGet st.streams conn.stream
         else { streamGet st.streams conn.stream with
                endCalls := (streamGet st.streams conn.stream).endCalls + 1 }) :=
  sweepGo_stale now st.registry st sock conn (mapGet_some_mem _ _ _ hreg) hnd hstr hstale hlen

/-- Witness for C8's amended theorem at a concrete stale session:
removed from the registry, stream ended exactly once, no event. -/
theorem idle_sweep_removes_stale_witness :
    (cleanupSweep staleState 1000000).events = staleState.events ∧
    mapGet (cleanupSweep staleState 1000000).registry 0 = none ∧
    streamGet (cleanupSweep staleState 1000000).streams 0 = ⟨false, 1⟩ :=
  idle_sweep_removes_stale staleState 1000000 0 ⟨0, cfgDemo, 0, 0⟩ (by decide) (by decide)
    (by decide) (by decide) (by decide)

end SpeechToSign
